import Mathlib

/-!
Shallow embedding of the `ignition::transport::Node` runtime
(`src/include/ignition/transport/Node.hh`) together with the parts of the
discovery/storage layer that the node methods call.  The node methods
(`Subscribe`, the service overload of `Advertise`, the blocking and
non-blocking `Request`) are translated directly from the header; the
storage and discovery operations whose implementations live outside the
provided sources are modelled from the specification and marked as such.

Messages are represented by their serialized byte strings; user callbacks
are Lean functions.  Each node-level operation returns the new state
together with the list of externally observable events it performed
(callback invocations, discovery emissions, request frames sent).
-/

namespace GzTransport

/-- The `std::find == end ? push_back` idiom used by `Node::Subscribe` and the
service overload of `Node::Advertise` to record a topic only when it is not
already present. -/
def addIfAbsent (l : List String) (t : String) : List String :=
  if t ∈ l then l else l ++ [t]

/-- First character after the leading slash: `[A-Za-z_]`. -/
def isTopicStartChar (c : Char) : Bool :=
  c.isAlpha || c = '_'

/-- Subsequent characters: `[A-Za-z0-9_/]`. -/
def isTopicChar (c : Char) : Bool :=
  c.isAlphanum || c = '_' || c = '/'

/-- No two consecutive slashes in a character list. -/
def noDoubleSlash : List Char → Bool
  | '/' :: '/' :: _ => false
  | _ :: rest => noDoubleSlash rest
  | [] => true

/-- Modelled from the spec: the topic-key grammar (a slash-prefixed
non-empty string matching `/[A-Za-z_][A-Za-z0-9_/]*`, with no double
slashes and no trailing slash).  The provided sources contain no topic
validation code; this definition follows the specification's words and is
used to compare the spec's claimed validation with what `Node::Subscribe`
actually does. -/
def validTopic (s : String) : Bool :=
  match s.data with
  | '/' :: c :: rest =>
      isTopicStartChar c && rest.all isTopicChar &&
      noDoubleSlash (c :: rest) && !((c :: rest).getLastD c == '/')
  | _ => false

/-- A remote service responder as recorded in the discovery table:
identity UUIDs as byte lists plus the reply endpoint address. -/
structure Responder where
  procUuid : List Nat
  nodeUuid : List Nat
  replyAddr : String
deriving DecidableEq, Repr

/-- Byte-lexicographic `≤` on byte strings. -/
def lexLe : List Nat → List Nat → Bool
  | [], _ => true
  | _ :: _, [] => false
  | a :: as, b :: bs =>
      if a < b then true
      else if b < a then false
      else lexLe as bs

/-- The identity key of a responder. -/
def respKey (r : Responder) : List Nat × List Nat :=
  (r.procUuid, r.nodeUuid)

/-- Byte-lexicographic `≤` on `(process_uuid, node_uuid)` pairs. -/
def keyLe (p q : List Nat × List Nat) : Bool :=
  if p.1 = q.1 then lexLe p.2 q.2 else lexLe p.1 q.1

/-- Fold computing the responder with the lowest identity key. -/
def minResponder (r : Responder) : List Responder → Responder
  | [] => r
  | s :: ss => minResponder (if keyLe (respKey r) (respKey s) then r else s) ss

/-- Modelled from the spec: selection of the single responder contacted for
a service request (`SendPendingRemoteReqs` is not among the provided
sources).  The specification pins the choice to the responder whose
`(process_uuid, node_uuid)` pair is lowest in byte-lexicographic order. -/
def selectResponder : List Responder → Option Responder
  | [] => none
  | r :: rs => some (minResponder r rs)

/-- A service replier callback: `(topic, serialized request) ↦ (serialized
response, result flag)`.  In the C++ source the callback writes its two
outputs through references (`void (*)(const std::string &, const T1 &,
T2 &, bool &)`). -/
def RepCb := String → String → String × Bool

/-- An entry of the replier registry: topic, owner node UUID, callback
(`RepHandler` stored through `RepStorage.AddRepHandler(topic, nUuid, h)`). -/
structure RepEntry where
  topic : String
  nUuid : String
  cb : RepCb

/-- Byte-wise `<` on character lists (the order of
`std::string::operator<`). -/
def charListLt : List Char → List Char → Bool
  | [], [] => false
  | [], _ :: _ => true
  | _ :: _, [] => false
  | a :: as, b :: bs =>
      if a.val < b.val then true
      else if b.val < a.val then false
      else charListLt as bs

/-- Byte-wise `<` on strings. -/
def strLt (s t : String) : Bool :=
  charListLt s.data t.data

/-- Key order: `(topic, nUuid)` strictly before `(topic', nUuid')` in the ordered-map
order (`std::map` keyed by topic, then by node UUID). -/
def repKeyLt (t u t' u' : String) : Bool :=
  strLt t t' || (t == t' && strLt u u')

/-- Modelled from the spec: `RepStorage.AddRepHandler` (not among the
provided sources) inserts the handler into the map
`topic -> (node_uuid -> ReplierHandler)`, replacing an existing entry with
the same `(topic, node_uuid)` key.  The flattened list is kept sorted by
`(topic, node_uuid)` to mirror `std::map` iteration order. -/
def addRepHandler (e : RepEntry) : List RepEntry → List RepEntry
  | [] => [e]
  | x :: xs =>
      if e.topic == x.topic && e.nUuid == x.nUuid then e :: xs
      else if repKeyLt e.topic e.nUuid x.topic x.nUuid then e :: x :: xs
      else x :: addRepHandler e xs

/-- Lookup `RepStorage.GetRepHandlers(topic, m)`: the repliers registered for a
topic, in node-UUID order (the blocking and non-blocking `Request` use
`repHandlers.begin()->second`, the first one). -/
def getRepHandlers (l : List RepEntry) (t : String) : List RepEntry :=
  l.filter (fun e => e.topic == t)

/-- Process-wide state held behind `Node::dataPtr` (`NodePrivate`): the
three handler registries and the discovery-side per-process tables. -/
structure ProcState where
  /-- Subscription registry entries `(topic, owner node uuid)`. -/
  localSubscriptions : List (String × String)
  /-- Replier registry (`repliers`). -/
  repliers : List RepEntry
  /-- Pending request registry entries `(topic, owner node uuid, request
  bytes)` (`requests`, filled by `AddReqHandler`). -/
  requests : List (String × String × String)
  /-- Discovery's remote responders table `topic -> responders`. -/
  addresses : List (String × List Responder)
  /-- Topics for which this process has emitted a `SUBSCRIBE_SRV`. -/
  subscribedSrv : List String

/-- The per-node members of `Node`: UUID string and the three topic
lists. -/
structure NodeSt where
  nUuid : String
  topicsSubscribed : List String
  topicsAdvertised : List String
  srvsAdvertised : List String

/-- A freshly constructed node: empty topic lists. -/
def initNode (u : String) : NodeSt :=
  ⟨u, [], [], []⟩

/-- The empty process state. -/
def emptyProc : ProcState :=
  ⟨[], [], [], [], []⟩

/-- Externally observable actions of a node operation. -/
inductive Event where
  /-- Call `discovery->Discover(isSrv, topic)`: emits `SUBSCRIBE`/`SUBSCRIBE_SRV`. -/
  | discover (isSrv : Bool) (topic : String)
  /-- Call `discovery->Advertise(AdvertiseType::Srv, ...)`: emits `ADVERTISE_SRV`. -/
  | advertiseSrv (topic : String)
  /-- A service request frame sent on the wire to a responder. -/
  | sendReqFrame (topic : String) (r : Responder)
  /-- Invocation `RunLocalCallback`: a local replier's callback invoked in-process. -/
  | runLocalCb (topic : String)
  /-- The requester's user callback `_cb(topic, rep, result)` invoked. -/
  | userReqCb (topic : String) (rep : String) (result : Bool)
deriving DecidableEq, Repr

/-- Query `Discovery::GetTopicAddresses(topic, addresses)`: true (= `some`) when
the remote responders table has an entry for the topic. -/
def addressesFor (pst : ProcState) (t : String) : Option (List Responder) :=
  pst.addresses.lookup t

/-- Insert a responder into a topic's bucket of the remote responders
table (idempotent). -/
def insertAddr (t : String) (r : Responder) :
    List (String × List Responder) → List (String × List Responder)
  | [] => [(t, [r])]
  | (t', rs) :: xs =>
      if t' == t then (t', if r ∈ rs then rs else rs ++ [r]) :: xs
      else (t', rs) :: insertAddr t r xs

/-- Modelled from the spec: discovery's handling of a received
`ADVERTISE_SRV` datagram (the discovery implementation is not among the
provided sources) — insert/refresh the remote responders table.  Heartbeats
repeat all local advertisements, so a process can learn responder
addresses without ever having emitted a `SUBSCRIBE_SRV`. -/
def recvAdvertiseSrv (pst : ProcState) (t : String) (r : Responder) : ProcState :=
  { pst with addresses := insertAddr t r pst.addresses }

/-- Modelled from the spec: `NodePrivate::SendPendingRemoteReqs` (not among
the provided sources) sends the request frame for the topic's pending
requests to the single responder chosen by the deterministic tie-break;
the other responders are not contacted. -/
def sendPendingRemoteReqs (pst : ProcState) (t : String) : List Event :=
  match addressesFor pst t with
  | some rs =>
      match selectResponder rs with
      | some r => [Event.sendReqFrame t r]
      | none => []
  | none => []

/-- Result of `Node::Subscribe`. -/
structure SubResult where
  pst : ProcState
  node : NodeSt
  events : List Event

/-- Method `Node::Subscribe(topic, cb)` (free-function overload, `Node.hh` lines
77–106): create a subscription handler and store it under
`(topic, nUuidStr)`; append the topic to `topicsSubscribed` if absent;
invoke `discovery->Discover(false, topic)`.  The source performs no
validation of the topic string. -/
def nodeSubscribe (pst : ProcState) (node : NodeSt) (t : String) : SubResult :=
  { pst := { pst with
      localSubscriptions := pst.localSubscriptions ++ [(t, node.nUuid)] }
    node := { node with topicsSubscribed := addIfAbsent node.topicsSubscribed t }
    events := [Event.discover false t] }

/-- Result of the service overload of `Node::Advertise`. -/
structure AdvSrvResult where
  pst : ProcState
  node : NodeSt
  events : List Event

/-- Service overload of `Node::Advertise(topic, cb, scope)` (`Node.hh`
lines 153–184): append the topic to `srvsAdvertised` if absent; store a
replier handler under `(topic, nUuidStr)`; notify discovery
(`ADVERTISE_SRV`).  The function returns `void`: it has no failure path
and performs no already-advertised check. -/
def nodeAdvertiseSrv (pst : ProcState) (node : NodeSt) (t : String)
    (cb : RepCb) : AdvSrvResult :=
  { pst := { pst with repliers := addRepHandler ⟨t, node.nUuid, cb⟩ pst.repliers }
    node := { node with srvsAdvertised := addIfAbsent node.srvsAdvertised t }
    events := [Event.advertiseSrv t] }

/-- Result of the non-blocking `Node::Request`. -/
structure NBReqResult where
  pst : ProcState
  events : List Event

/-- Non-blocking `Node::Request(topic, req, cb)` (`Node.hh` lines
192–236): if a replier exists in this process, run the first one's
callback locally (`RunLocalCallback`) and invoke `_cb(topic, rep, result)`
before returning, touching neither the request registry nor the network;
otherwise store a request handler carrying the request bytes, then either
send the pending remote requests (responder addresses known) or invoke
`discovery->Discover(true, topic)`. -/
def nodeRequestNB (pst : ProcState) (node : NodeSt) (t req : String) :
    NBReqResult :=
  match getRepHandlers pst.repliers t with
  | h :: _ =>
      let out := h.cb t req
      { pst := pst, events := [Event.runLocalCb t, Event.userReqCb t out.1 out.2] }
  | [] =>
      let pst1 := { pst with requests := pst.requests ++ [(t, node.nUuid, req)] }
      if (addressesFor pst1 t).isSome then
        { pst := pst1, events := sendPendingRemoteReqs pst1 t }
      else
        { pst := { pst1 with subscribedSrv := addIfAbsent pst1.subscribedSrv t }
          events := [Event.discover true t] }

/-- The semantic model of `condition.wait_until(lk, now + timeout,
[&]{ return repAvailable; })`: the environment's response for this request
is `arrival = some (tArr, bytes, resultFlag)` when a response is delivered
`tArr` milliseconds after the call (or `none` when no response ever
arrives); the wait succeeds exactly when the response is available by the
deadline. -/
def waitForRep (timeout : Nat) (arrival : Option (Nat × String × Bool)) :
    Option (String × Bool) :=
  match arrival with
  | some (tArr, bytes, res) => if tArr ≤ timeout then some (bytes, res) else none
  | none => none

/-- Result of the blocking `Node::Request`: the returned `executed` flag
and the final values of the caller's output parameters `_rep` and
`_result`. -/
structure BReqResult where
  executed : Bool
  rep : String
  result : Bool
  pst : ProcState
  events : List Event

/-- Blocking `Node::Request(topic, req, timeout, _rep, _result)`
(`Node.hh` lines 245–307): if a replier exists in this process, run the
first one's callback into `_rep`/`_result` and return `true`; otherwise
store a request handler, send or discover as in the non-blocking case, and
wait on the handler's condition until `repAvailable` or the deadline.
When the wait succeeds, `_rep` is parsed from the response bytes only if
the result flag is set, and `_result` is copied from the handler; the
return value is the wait's outcome.  The timeout path performs no removal
from the request registry.  `rep0`/`result0` are the caller's values of
`_rep`/`_result` at the call. -/
def nodeRequestB (pst : ProcState) (node : NodeSt) (t req : String)
    (timeout : Nat) (rep0 : String) (result0 : Bool)
    (arrival : Option (Nat × String × Bool)) : BReqResult :=
  match getRepHandlers pst.repliers t with
  | h :: _ =>
      let out := h.cb t req
      { executed := true, rep := out.1, result := out.2, pst := pst
        events := [Event.runLocalCb t] }
  | [] =>
      let pst1 := { pst with requests := pst.requests ++ [(t, node.nUuid, req)] }
      let step :
          ProcState × List Event :=
        if (addressesFor pst1 t).isSome then (pst1, sendPendingRemoteReqs pst1 t)
        else ({ pst1 with subscribedSrv := addIfAbsent pst1.subscribedSrv t },
              [Event.discover true t])
      match waitForRep timeout arrival with
      | some (bytes, res) =>
          { executed := true, rep := if res then bytes else rep0, result := res
            pst := step.1, events := step.2 }
      | none =>
          { executed := false, rep := rep0, result := result0
            pst := step.1, events := step.2 }

/-- A node-level operation touching the node's topic lists. -/
inductive NodeOp where
  | subscribe (t : String)
  | advertiseSrv (t : String) (cb : RepCb)

/-- Apply one operation to the process and node state. -/
def applyOp : ProcState × NodeSt → NodeOp → ProcState × NodeSt
  | (pst, nd), NodeOp.subscribe t =>
      ((nodeSubscribe pst nd t).pst, (nodeSubscribe pst nd t).node)
  | (pst, nd), NodeOp.advertiseSrv t cb =>
      ((nodeAdvertiseSrv pst nd t cb).pst, (nodeAdvertiseSrv pst nd t cb).node)

/-- Run a sequence of operations from the given start state. -/
def runOps (start : ProcState × NodeSt) (ops : List NodeOp) : ProcState × NodeSt :=
  ops.foldl applyOp start

/-! ### Helper lemmas -/

/-- Inserting a replier handler puts it in the registry. -/
lemma mem_addRepHandler_self (e : RepEntry) (l : List RepEntry) :
    e ∈ addRepHandler e l := by
  induction l with
  | nil => simp [addRepHandler]
  | cons x xs ih =>
      unfold addRepHandler
      split
      · exact List.mem_cons_self _ _
      · split
        · exact List.mem_cons_self _ _
        · exact List.mem_cons_of_mem _ ih

/-- Inserting a replier handler keeps every entry whose `(topic, node
uuid)` key differs from the inserted one. -/
lemma mem_addRepHandler_of_mem (e x : RepEntry) (l : List RepEntry)
    (hx : x ∈ l) (hne : x.topic ≠ e.topic ∨ x.nUuid ≠ e.nUuid) :
    x ∈ addRepHandler e l := by
  induction l with
  | nil => cases hx
  | cons y ys ih =>
      unfold addRepHandler
      rcases List.mem_cons.mp hx with rfl | hx'
      · split
        · rename_i hkey
          rw [Bool.and_eq_true, beq_iff_eq, beq_iff_eq] at hkey
          rcases hne with hne | hne
          · exact absurd hkey.1.symm hne
          · exact absurd hkey.2.symm hne
        · split
          · exact List.mem_cons_of_mem _ (List.mem_cons_self _ _)
          · exact List.mem_cons_self _ _
      · split
        · exact List.mem_cons_of_mem _ hx'
        · split
          · exact List.mem_cons_of_mem _ (List.mem_cons_of_mem _ hx')
          · exact List.mem_cons_of_mem _ (ih hx')

/-- A topic is present after `addIfAbsent`. -/
lemma mem_addIfAbsent_self (l : List String) (t : String) :
    t ∈ addIfAbsent l t := by
  unfold addIfAbsent
  split
  · assumption
  · simp

/-- `addIfAbsent` preserves freedom from duplicates. -/
lemma nodup_addIfAbsent (l : List String) (t : String) (h : l.Nodup) :
    (addIfAbsent l t).Nodup := by
  unfold addIfAbsent
  split
  · exact h
  · rename_i hnot
    simp [List.nodup_append, h, hnot]

/-- The frame-sending step emits no user request callback. -/
lemma userReqCb_not_mem_sendPending (pst : ProcState) (t t' r' : String)
    (b' : Bool) : Event.userReqCb t' r' b' ∉ sendPendingRemoteReqs pst t := by
  unfold sendPendingRemoteReqs
  cases haf : addressesFor pst t with
  | none => simp
  | some rs =>
      cases hsel : selectResponder rs with
      | none => simp [hsel]
      | some r => simp [hsel]

/-! ### Concrete fixtures -/

/-- An echo replier callback: copies the request into the response. -/
def cbEcho : RepCb := fun _ req => (req, true)

/-- A node with UUID string `aaaa`. -/
def nodeA : NodeSt := initNode "aaaa"

/-- A node with UUID string `bbbb` (same process as `nodeA`). -/
def nodeB : NodeSt := initNode "bbbb"

/-- A process state holding exactly one replier for `/echo`, owned by
`nodeA`. -/
def pstOneRep : ProcState :=
  { emptyProc with repliers := [⟨"/echo", "aaaa", cbEcho⟩] }

/-! ### C1 -/

/-- C1, counterexample: the service overload of `Node::Advertise` returns
`void` and performs no already-advertised check, so after `nodeA` and then
`nodeB` (same process) advertise `/echo`, the process's replier registry
holds BOTH handlers — refuting both the claimed `AlreadyAdvertised`
failure and "at most one replier per topic within a single process".  The
second call also proceeds to notify discovery exactly like the first. -/
theorem advertise_srv_two_repliers_cex :
    ((getRepHandlers
        (nodeAdvertiseSrv (nodeAdvertiseSrv emptyProc nodeA "/echo" cbEcho).pst
          nodeB "/echo" cbEcho).pst.repliers "/echo").map RepEntry.nUuid)
      = ["aaaa", "bbbb"] ∧
    (nodeAdvertiseSrv (nodeAdvertiseSrv emptyProc nodeA "/echo" cbEcho).pst
        nodeB "/echo" cbEcho).events = [Event.advertiseSrv "/echo"] := by
  constructor <;> rfl

/-- C1, amended: the service overload of `Advertise` never fails; each
call inserts a replier handler keyed by the calling node's UUID.  An
existing replier owned by a different node survives, and the new node's
replier is also present afterwards, so one process can hold several
repliers for the same topic. -/
theorem advertise_srv_inserts_keyed_replier (pst : ProcState) (node : NodeSt)
    (t : String) (cb : RepCb) (e : RepEntry) (hmem : e ∈ pst.repliers)
    (hne : e.nUuid ≠ node.nUuid) :
    e ∈ (nodeAdvertiseSrv pst node t cb).pst.repliers ∧
    ∃ e', e' ∈ (nodeAdvertiseSrv pst node t cb).pst.repliers ∧
      e'.topic = t ∧ e'.nUuid = node.nUuid := by
  constructor
  · exact mem_addRepHandler_of_mem _ _ _ hmem (Or.inr hne)
  · exact ⟨⟨t, node.nUuid, cb⟩, mem_addRepHandler_self _ _, rfl, rfl⟩

/-- C1, witness for the amended theorem at a concrete input. -/
theorem advertise_srv_inserts_keyed_replier_witness :
    (⟨"/echo", "aaaa", cbEcho⟩ : RepEntry) ∈
        (nodeAdvertiseSrv pstOneRep nodeB "/echo" cbEcho).pst.repliers ∧
    ∃ e', e' ∈ (nodeAdvertiseSrv pstOneRep nodeB "/echo" cbEcho).pst.repliers ∧
      e'.topic = "/echo" ∧ e'.nUuid = "bbbb" :=
  advertise_srv_inserts_keyed_replier pstOneRep nodeB "/echo" cbEcho
    ⟨"/echo", "aaaa", cbEcho⟩ (List.mem_singleton.mpr rfl) (by decide)

/-! ### C4 -/

/-- C4, counterexample: `Node::Subscribe` performs no topic validation.
The empty string is invalid under the spec's topic-key grammar, yet
subscribing to it inserts a subscription handler, records the topic in
`topicsSubscribed`, and invokes `Discover(false, topic)`. -/
theorem subscribe_no_validation_cex :
    validTopic "" = false ∧
    (nodeSubscribe emptyProc nodeA "").pst.localSubscriptions = [("", "aaaa")] ∧
    (nodeSubscribe emptyProc nodeA "").node.topicsSubscribed = [""] ∧
    (nodeSubscribe emptyProc nodeA "").events = [Event.discover false ""] := by
  refine ⟨rfl, rfl, rfl, rfl⟩

/-- C4, amended: for EVERY topic string — valid or invalid under the
spec's grammar — `Subscribe` inserts a subscription handler owned by the
node, records the topic, and invokes `discovery.Discover(service=false,
topic)`; the source performs no validation and rejects nothing. -/
theorem subscribe_always_inserts (pst : ProcState) (node : NodeSt)
    (t : String) :
    (t, node.nUuid) ∈ (nodeSubscribe pst node t).pst.localSubscriptions ∧
    t ∈ (nodeSubscribe pst node t).node.topicsSubscribed ∧
    (nodeSubscribe pst node t).events = [Event.discover false t] := by
  refine ⟨?_, mem_addIfAbsent_self _ _, rfl⟩
  simp [nodeSubscribe]

/-! ### C2 -/

/-- C2: a blocking `Request` on a topic whose replier list in this process
starts with handler `h` runs `h`'s callback synchronously, fills the
`_rep`/`_result` outputs from it, and returns `true`; the process state is
untouched (in particular no pending request entry is created) and the only
event is the local callback invocation — no network send, no discovery. -/
theorem blocking_request_local_replier (pst : ProcState) (node : NodeSt)
    (t req : String) (timeout : Nat) (rep0 : String) (result0 : Bool)
    (arrival : Option (Nat × String × Bool)) (h : RepEntry) (hs : List RepEntry)
    (hh : getRepHandlers pst.repliers t = h :: hs) :
    nodeRequestB pst node t req timeout rep0 result0 arrival =
      { executed := true, rep := (h.cb t req).1, result := (h.cb t req).2
        pst := pst, events := [Event.runLocalCb t] } := by
  unfold nodeRequestB
  rw [hh]

/-- C2, witness: a concrete blocking request served by the local `/echo`
replier. -/
theorem blocking_request_local_replier_witness :
    nodeRequestB pstOneRep nodeA "/echo" "hi" 100 "" false none =
      { executed := true, rep := "hi", result := true
        pst := pstOneRep, events := [Event.runLocalCb "/echo"] } :=
  blocking_request_local_replier pstOneRep nodeA "/echo" "hi" 100 "" false none
    ⟨"/echo", "aaaa", cbEcho⟩ [] rfl

/-! ### C6 -/

/-- C6: a non-blocking `Request` on a topic whose replier list in this
process starts with handler `h` runs `h`'s callback synchronously and then
invokes the user callback `_cb(topic, rep, result)` with the replier's
outputs before returning; the process state is untouched (no pending
request allocated) and no network or discovery event occurs. -/
theorem nonblocking_request_local_replier (pst : ProcState) (node : NodeSt)
    (t req : String) (h : RepEntry) (hs : List RepEntry)
    (hh : getRepHandlers pst.repliers t = h :: hs) :
    nodeRequestNB pst node t req =
      { pst := pst
        events := [Event.runLocalCb t,
                   Event.userReqCb t (h.cb t req).1 (h.cb t req).2] } := by
  unfold nodeRequestNB
  rw [hh]

/-- C6, witness: a concrete non-blocking request served by the local
`/echo` replier. -/
theorem nonblocking_request_local_replier_witness :
    nodeRequestNB pstOneRep nodeA "/echo" "hi" =
      { pst := pstOneRep
        events := [Event.runLocalCb "/echo",
                   Event.userReqCb "/echo" "hi" true] } :=
  nonblocking_request_local_replier pstOneRep nodeA "/echo" "hi"
    ⟨"/echo", "aaaa", cbEcho⟩ [] rfl

/-! ### C3 -/

/-- C3, counterexample: a blocking `Request` with no local replier, no
known responder and no response returns `false` — but the pending request
entry is still in the request registry afterwards: the timeout path of
`Node::Request` performs no removal, refuting "the pending request entry
… has been removed". -/
theorem blocking_timeout_entry_remains_cex :
    (nodeRequestB emptyProc nodeA "/echo" "req" 200 "r0" false none).executed
      = false ∧
    (nodeRequestB emptyProc nodeA "/echo" "req" 200 "r0" false none).pst.requests
      = [("/echo", "aaaa", "req")] := by
  exact ⟨rfl, rfl⟩

/-- C3, amended: when the deadline expires before a response is available
(`waitForRep` yields nothing, covering both no response and a late one),
the blocking `Request` returns `false`, leaves the caller's `_rep` and
`_result` untouched, invokes no user callback — but the pending request
entry REMAINS in the request registry; the timeout path does not remove
it. -/
theorem blocking_timeout_amended (pst : ProcState) (node : NodeSt)
    (t req : String) (timeout : Nat) (rep0 : String) (result0 : Bool)
    (arrival : Option (Nat × String × Bool))
    (hnorep : getRepHandlers pst.repliers t = [])
    (hexp : waitForRep timeout arrival = none) :
    (nodeRequestB pst node t req timeout rep0 result0 arrival).executed
      = false ∧
    (nodeRequestB pst node t req timeout rep0 result0 arrival).rep = rep0 ∧
    (nodeRequestB pst node t req timeout rep0 result0 arrival).result
      = result0 ∧
    (t, node.nUuid, req) ∈
      (nodeRequestB pst node t req timeout rep0 result0 arrival).pst.requests ∧
    ∀ t' r' b', Event.userReqCb t' r' b' ∉
      (nodeRequestB pst node t req timeout rep0 result0 arrival).events := by
  simp only [nodeRequestB, hnorep, hexp]
  refine ⟨trivial, trivial, trivial, ?_, ?_⟩
  · split <;> simp
  · intro t' r' b'
    split
    · simpa using userReqCb_not_mem_sendPending _ t t' r' b'
    · simp

/-- C3, witness for the amended theorem: the 200 ms request to `/echo`
with no responder. -/
theorem blocking_timeout_amended_witness :
    (nodeRequestB emptyProc nodeA "/echo" "req" 200 "r0" false none).executed
      = false ∧
    (nodeRequestB emptyProc nodeA "/echo" "req" 200 "r0" false none).rep
      = "r0" ∧
    (nodeRequestB emptyProc nodeA "/echo" "req" 200 "r0" false none).result
      = false ∧
    ("/echo", "aaaa", "req") ∈
      (nodeRequestB emptyProc nodeA "/echo" "req" 200 "r0" false none).pst.requests ∧
    ∀ t' r' b', Event.userReqCb t' r' b' ∉
      (nodeRequestB emptyProc nodeA "/echo" "req" 200 "r0" false none).events :=
  blocking_timeout_amended emptyProc nodeA "/echo" "req" 200 "r0" false none
    rfl rfl

/-! ### C5 -/

/-- C5: for a blocking `Request` that reaches the wait (no replier in this
process), the returned boolean is `true` exactly when a response became
available within the timeout — i.e. when the environment delivers the
response at some `tArr ≤ timeout` milliseconds, setting the handler's
`repAvailable` flag while the caller waits on its condition. -/
theorem blocking_request_true_iff_response (pst : ProcState) (node : NodeSt)
    (t req : String) (timeout : Nat) (rep0 : String) (result0 : Bool)
    (arrival : Option (Nat × String × Bool))
    (hnorep : getRepHandlers pst.repliers t = []) :
    (nodeRequestB pst node t req timeout rep0 result0 arrival).executed = true
      ↔ ∃ tArr bytes res,
          arrival = some (tArr, bytes, res) ∧ tArr ≤ timeout := by
  unfold nodeRequestB
  rw [hnorep]
  cases arrival with
  | none => simp [waitForRep]
  | some x =>
      obtain ⟨tArr, bytes, res⟩ := x
      by_cases hle : tArr ≤ timeout <;> simp [waitForRep, hle]

/-- C5, witness: a concrete request whose response arrives at 50 ms with a
100 ms timeout returns `true`. -/
theorem blocking_request_true_iff_response_witness :
    (nodeRequestB emptyProc nodeA "/s" "q" 100 "r0" false
        (some (50, "resp", true))).executed = true
      ↔ ∃ tArr bytes res,
          (some (50, "resp", true) : Option (Nat × String × Bool))
            = some (tArr, bytes, res) ∧ tArr ≤ 100 :=
  blocking_request_true_iff_response emptyProc nodeA "/s" "q" 100 "r0" false
    (some (50, "resp", true)) rfl

/-! ### C10 -/

/-- C10: frame conditions of the blocking `Request` on the caller's output
parameters.  If the call returns `false` (timeout), both `_rep` and
`_result` keep their values from the call site; if the call reaches the
wait (no local replier) and returns `true` with the completion slot's
result flag `false`, `_rep` keeps its value — the response bytes are
parsed into `_rep` only when the result flag is set. -/
theorem blocking_request_frame (pst : ProcState) (node : NodeSt)
    (t req : String) (timeout : Nat) (rep0 : String) (result0 : Bool)
    (arrival : Option (Nat × String × Bool)) :
    ((nodeRequestB pst node t req timeout rep0 result0 arrival).executed
        = false →
      (nodeRequestB pst node t req timeout rep0 result0 arrival).rep = rep0 ∧
      (nodeRequestB pst node t req timeout rep0 result0 arrival).result
        = result0) ∧
    (getRepHandlers pst.repliers t = [] →
      (nodeRequestB pst node t req timeout rep0 result0 arrival).executed
        = true →
      (nodeRequestB pst node t req timeout rep0 result0 arrival).result
        = false →
      (nodeRequestB pst node t req timeout rep0 result0 arrival).rep
        = rep0) := by
  cases hreps : getRepHandlers pst.repliers t with
  | cons h hs => simp [nodeRequestB, hreps]
  | nil =>
      cases hw : waitForRep timeout arrival with
      | none => simp [nodeRequestB, hreps, hw]
      | some out =>
          obtain ⟨bytes, res⟩ := out
          refine ⟨?_, ?_⟩
          · intro hfalse
            simp [nodeRequestB, hreps, hw] at hfalse
          · intro _ _ hres
            simp only [nodeRequestB, hreps, hw] at hres ⊢
            simp [hres]

/-- C10, witness: a concrete request whose response arrives in time with
result flag `false` leaves `_rep` at its original value. -/
theorem blocking_request_frame_witness :
    ((nodeRequestB emptyProc nodeA "/s" "q" 100 "r0" true
        (some (50, "resp", false))).executed = false →
      (nodeRequestB emptyProc nodeA "/s" "q" 100 "r0" true
        (some (50, "resp", false))).rep = "r0" ∧
      (nodeRequestB emptyProc nodeA "/s" "q" 100 "r0" true
        (some (50, "resp", false))).result = true) ∧
    (getRepHandlers emptyProc.repliers "/s" = [] →
      (nodeRequestB emptyProc nodeA "/s" "q" 100 "r0" true
        (some (50, "resp", false))).executed = true →
      (nodeRequestB emptyProc nodeA "/s" "q" 100 "r0" true
        (some (50, "resp", false))).result = false →
      (nodeRequestB emptyProc nodeA "/s" "q" 100 "r0" true
        (some (50, "resp", false))).rep = "r0") :=
  blocking_request_frame emptyProc nodeA "/s" "q" 100 "r0" true
    (some (50, "resp", false))

/-! ### C7 -/

/-- A responder used in the concrete discovery scenarios. -/
def resp0 : Responder := ⟨[1], [2], "tcp host one"⟩

/-- A process that learned `/s`'s responder from an unsolicited
`ADVERTISE_SRV` (heartbeat) without ever emitting a `SUBSCRIBE_SRV`. -/
def pstKnown : ProcState := recvAdvertiseSrv emptyProc "/s" resp0

/-- C7, counterexample: in a process that learned the responder addresses
of `/s` from an unsolicited heartbeat announcement (so `subscribedSrv` is
empty), a non-blocking `Request` with no local replier stores the pending
request and sends the request frame — but never causes a `SUBSCRIBE_SRV`
to be issued, refuting "ensures discovery has issued a SUBSCRIBE_SRV for
the topic". -/
theorem request_no_subscribe_srv_cex :
    getRepHandlers pstKnown.repliers "/s" = [] ∧
    pstKnown.subscribedSrv = [] ∧
    (nodeRequestNB pstKnown nodeA "/s" "q").pst.subscribedSrv = [] ∧
    (nodeRequestNB pstKnown nodeA "/s" "q").pst.requests
      = [("/s", "aaaa", "q")] ∧
    (nodeRequestNB pstKnown nodeA "/s" "q").events
      = [Event.sendReqFrame "/s" resp0] := by
  exact ⟨rfl, rfl, rfl, rfl, rfl⟩

/-- C7, amended: a `Request` (non-blocking or blocking) with no replier in
this process stores a pending request entry; when responder addresses are
already known it sends the request frame to exactly the one responder
chosen by the deterministic tie-break (the others are not contacted) and
issues no `SUBSCRIBE_SRV`; only when no address is known does it invoke
`Discover(service=true, topic)`, which issues the `SUBSCRIBE_SRV`. -/
theorem request_no_local_replier (pst : ProcState) (node : NodeSt)
    (t req : String) (timeout : Nat) (rep0 : String) (result0 : Bool)
    (arrival : Option (Nat × String × Bool))
    (hnorep : getRepHandlers pst.repliers t = []) :
    ((t, node.nUuid, req) ∈ (nodeRequestNB pst node t req).pst.requests ∧
     (∀ rs, addressesFor pst t = some rs →
        (nodeRequestNB pst node t req).events
          = (match selectResponder rs with
             | some r => [Event.sendReqFrame t r]
             | none => []) ∧
        (nodeRequestNB pst node t req).pst.subscribedSrv
          = pst.subscribedSrv) ∧
     (addressesFor pst t = none →
        (nodeRequestNB pst node t req).events = [Event.discover true t] ∧
        t ∈ (nodeRequestNB pst node t req).pst.subscribedSrv)) ∧
    ((t, node.nUuid, req) ∈
        (nodeRequestB pst node t req timeout rep0 result0 arrival).pst.requests ∧
     (∀ rs, addressesFor pst t = some rs →
        (nodeRequestB pst node t req timeout rep0 result0 arrival).events
          = (match selectResponder rs with
             | some r => [Event.sendReqFrame t r]
             | none => []) ∧
        (nodeRequestB pst node t req timeout rep0 result0 arrival).pst.subscribedSrv
          = pst.subscribedSrv) ∧
     (addressesFor pst t = none →
        (nodeRequestB pst node t req timeout rep0 result0 arrival).events
          = [Event.discover true t] ∧
        t ∈ (nodeRequestB pst node t req timeout rep0 result0
              arrival).pst.subscribedSrv)) := by
  constructor
  · simp only [nodeRequestNB, hnorep]
    refine ⟨?_, ?_, ?_⟩
    · split <;> simp
    · intro rs haf
      have hsome : (addressesFor
          { pst with requests := pst.requests ++ [(t, node.nUuid, req)] }
          t) = some rs := haf
      rw [if_pos (by simp [hsome])]
      simp only [sendPendingRemoteReqs, hsome]
      refine ⟨?_, by trivial⟩
      cases selectResponder rs <;> trivial
    · intro haf
      have hnone : (addressesFor
          { pst with requests := pst.requests ++ [(t, node.nUuid, req)] }
          t) = none := haf
      rw [if_neg (by simp [hnone])]
      exact ⟨rfl, mem_addIfAbsent_self _ _⟩
  · cases hw : waitForRep timeout arrival with
    | none =>
        simp only [nodeRequestB, hnorep, hw]
        refine ⟨?_, ?_, ?_⟩
        · split <;> simp
        · intro rs haf
          have hsome : (addressesFor
              { pst with requests := pst.requests ++ [(t, node.nUuid, req)] }
              t) = some rs := haf
          rw [if_pos (by simp [hsome])]
          simp only [sendPendingRemoteReqs, hsome]
          refine ⟨?_, by trivial⟩
          cases selectResponder rs <;> trivial
        · intro haf
          have hnone : (addressesFor
              { pst with requests := pst.requests ++ [(t, node.nUuid, req)] }
              t) = none := haf
          rw [if_neg (by simp [hnone])]
          exact ⟨rfl, mem_addIfAbsent_self _ _⟩
    | some out =>
        obtain ⟨bytes, res⟩ := out
        simp only [nodeRequestB, hnorep, hw]
        refine ⟨?_, ?_, ?_⟩
        · split <;> simp
        · intro rs haf
          have hsome : (addressesFor
              { pst with requests := pst.requests ++ [(t, node.nUuid, req)] }
              t) = some rs := haf
          rw [if_pos (by simp [hsome])]
          simp only [sendPendingRemoteReqs, hsome]
          refine ⟨?_, by trivial⟩
          cases selectResponder rs <;> trivial
        · intro haf
          have hnone : (addressesFor
              { pst with requests := pst.requests ++ [(t, node.nUuid, req)] }
              t) = none := haf
          rw [if_neg (by simp [hnone])]
          exact ⟨rfl, mem_addIfAbsent_self _ _⟩

/-- C7, witness for the amended theorem: a request on the fixture process
that already knows `/s`'s responder. -/
theorem request_no_local_replier_witness :
    ((("/s" : String), ("aaaa" : String), ("q" : String)) ∈
        (nodeRequestNB pstKnown nodeA "/s" "q").pst.requests ∧
     (∀ rs, addressesFor pstKnown "/s" = some rs →
        (nodeRequestNB pstKnown nodeA "/s" "q").events
          = (match selectResponder rs with
             | some r => [Event.sendReqFrame "/s" r]
             | none => []) ∧
        (nodeRequestNB pstKnown nodeA "/s" "q").pst.subscribedSrv
          = pstKnown.subscribedSrv) ∧
     (addressesFor pstKnown "/s" = none →
        (nodeRequestNB pstKnown nodeA "/s" "q").events
          = [Event.discover true "/s"] ∧
        "/s" ∈ (nodeRequestNB pstKnown nodeA "/s" "q").pst.subscribedSrv)) ∧
    ((("/s" : String), ("aaaa" : String), ("q" : String)) ∈
        (nodeRequestB pstKnown nodeA "/s" "q" 100 "r0" false none).pst.requests ∧
     (∀ rs, addressesFor pstKnown "/s" = some rs →
        (nodeRequestB pstKnown nodeA "/s" "q" 100 "r0" false none).events
          = (match selectResponder rs with
             | some r => [Event.sendReqFrame "/s" r]
             | none => []) ∧
        (nodeRequestB pstKnown nodeA "/s" "q" 100 "r0" false
            none).pst.subscribedSrv = pstKnown.subscribedSrv) ∧
     (addressesFor pstKnown "/s" = none →
        (nodeRequestB pstKnown nodeA "/s" "q" 100 "r0" false none).events
          = [Event.discover true "/s"] ∧
        "/s" ∈ (nodeRequestB pstKnown nodeA "/s" "q" 100 "r0" false
            none).pst.subscribedSrv)) :=
  request_no_local_replier pstKnown nodeA "/s" "q" 100 "r0" false none rfl

/-! ### C8: properties of the byte-lex order and the selection -/

/-- Reflexivity of the byte-lex order. -/
lemma lexLe_refl (a : List Nat) : lexLe a a = true := by
  induction a with
  | nil => rfl
  | cons x xs ih => simp [lexLe, ih]

/-- Totality of the byte-lex order. -/
lemma lexLe_total (a b : List Nat) : lexLe a b = true ∨ lexLe b a = true := by
  induction a generalizing b with
  | nil => exact Or.inl rfl
  | cons x xs ih =>
      cases b with
      | nil => exact Or.inr rfl
      | cons y ys =>
          rcases Nat.lt_trichotomy x y with hxy | rfl | hyx
          · left; simp [lexLe, hxy]
          · have hirr : ¬ x < x := Nat.lt_irrefl x
            rcases ih ys with h | h
            · left; simp [lexLe, hirr, h]
            · right; simp [lexLe, hirr, h]
          · right; simp [lexLe, hyx]

/-- Antisymmetry of the byte-lex order. -/
lemma lexLe_antisymm (a b : List Nat) (hab : lexLe a b = true)
    (hba : lexLe b a = true) : a = b := by
  induction a generalizing b with
  | nil =>
      cases b with
      | nil => rfl
      | cons y ys => simp [lexLe] at hba
  | cons x xs ih =>
      cases b with
      | nil => simp [lexLe] at hab
      | cons y ys =>
          rcases Nat.lt_trichotomy x y with hxy | rfl | hyx
          · have : ¬ y < x := Nat.lt_asymm hxy
            simp [lexLe, hxy, this] at hba
          · have hirr : ¬ x < x := Nat.lt_irrefl x
            simp only [lexLe, if_neg hirr] at hab hba
            rw [ih ys hab hba]
          · have : ¬ y < x → False := fun h => h hyx
            simp [lexLe, Nat.lt_asymm hyx, hyx] at hab

/-- Transitivity of the byte-lex order. -/
lemma lexLe_trans (a b c : List Nat) (hab : lexLe a b = true)
    (hbc : lexLe b c = true) : lexLe a c = true := by
  induction a generalizing b c with
  | nil => rfl
  | cons x xs ih =>
      cases b with
      | nil => simp [lexLe] at hab
      | cons y ys =>
          cases c with
          | nil => simp [lexLe] at hbc
          | cons z zs =>
              simp only [lexLe] at hab hbc ⊢
              rcases Nat.lt_trichotomy x y with hxy | rfl | hyx
              · rcases Nat.lt_trichotomy y z with hyz | rfl | hzy
                · simp [Nat.lt_trans hxy hyz]
                · simp [hxy]
                · simp [Nat.lt_asymm hzy, hzy] at hbc
              · rcases Nat.lt_trichotomy x z with hxz | rfl | hzx
                · simp [hxz]
                · simp only [if_neg (Nat.lt_irrefl x)] at hab hbc ⊢
                  exact ih ys zs hab hbc
                · simp [Nat.lt_asymm hzx, hzx] at hbc
              · simp [Nat.lt_asymm hyx, hyx] at hab

/-- Reflexivity of the identity-key order. -/
lemma keyLe_refl (p : List Nat × List Nat) : keyLe p p = true := by
  simp [keyLe, lexLe_refl]

/-- Totality of the identity-key order. -/
lemma keyLe_total (p q : List Nat × List Nat) :
    keyLe p q = true ∨ keyLe q p = true := by
  unfold keyLe
  by_cases h : p.1 = q.1
  · simp [h, lexLe_total p.2 q.2]
  · have h' : q.1 ≠ p.1 := fun hh => h hh.symm
    simp [h, h', lexLe_total p.1 q.1]

/-- Antisymmetry of the identity-key order. -/
lemma keyLe_antisymm (p q : List Nat × List Nat) (hpq : keyLe p q = true)
    (hqp : keyLe q p = true) : p = q := by
  unfold keyLe at hpq hqp
  by_cases h : p.1 = q.1
  · have h' : q.1 = p.1 := h.symm
    rw [if_pos h] at hpq
    rw [if_pos h'] at hqp
    exact Prod.ext h (lexLe_antisymm _ _ hpq hqp)
  · have h' : q.1 ≠ p.1 := fun hh => h hh.symm
    rw [if_neg h] at hpq
    rw [if_neg h'] at hqp
    exact absurd (lexLe_antisymm _ _ hpq hqp) h

/-- Transitivity of the identity-key order. -/
lemma keyLe_trans (p q r : List Nat × List Nat) (hpq : keyLe p q = true)
    (hqr : keyLe q r = true) : keyLe p r = true := by
  unfold keyLe at hpq hqr ⊢
  by_cases h1 : p.1 = q.1 <;> by_cases h2 : q.1 = r.1
  · rw [if_pos h1] at hpq
    rw [if_pos h2] at hqr
    rw [if_pos (h1.trans h2)]
    exact lexLe_trans _ _ _ hpq hqr
  · rw [if_pos h1] at hpq
    rw [if_neg h2] at hqr
    rw [if_neg (h1 ▸ h2), h1]
    exact hqr
  · rw [if_neg h1] at hpq
    rw [if_pos h2] at hqr
    rw [if_neg (h2 ▸ h1), ← h2]
    exact hpq
  · rw [if_neg h1] at hpq
    rw [if_neg h2] at hqr
    by_cases h3 : p.1 = r.1
    · have hqp : lexLe q.1 p.1 = true := by rw [h3]; exact hqr
      exact absurd (lexLe_antisymm _ _ hpq hqp) h1
    · rw [if_neg h3]
      exact lexLe_trans _ _ _ hpq hqr

/-- The fold result is one of the candidates. -/
lemma minResponder_mem (l : List Responder) (r : Responder) :
    minResponder r l ∈ r :: l := by
  induction l generalizing r with
  | nil => simp [minResponder]
  | cons s ss ih =>
      unfold minResponder
      by_cases hk : keyLe (respKey r) (respKey s) = true
      · rw [if_pos hk]
        rcases List.mem_cons.mp (ih r) with h | h
        · rw [h]; exact List.mem_cons_self _ _
        · exact List.mem_cons_of_mem _ (List.mem_cons_of_mem _ h)
      · rw [if_neg hk]
        rcases List.mem_cons.mp (ih s) with h | h
        · rw [h]; exact List.mem_cons_of_mem _ (List.mem_cons_self _ _)
        · exact List.mem_cons_of_mem _ (List.mem_cons_of_mem _ h)

/-- The fold result's key is lowest among the candidates. -/
lemma minResponder_le (l : List Responder) :
    ∀ (r x : Responder), x ∈ r :: l →
      keyLe (respKey (minResponder r l)) (respKey x) = true := by
  induction l with
  | nil =>
      intro r x hx
      rcases List.mem_cons.mp hx with rfl | h
      · exact keyLe_refl _
      · cases h
  | cons s ss ih =>
      intro r x hx
      unfold minResponder
      by_cases hk : keyLe (respKey r) (respKey s) = true
      · rw [if_pos hk]
        rcases List.mem_cons.mp hx with h | hx'
        · rw [h]
          exact ih r r (List.mem_cons_self _ _)
        · rcases List.mem_cons.mp hx' with h | hx''
          · rw [h]
            exact keyLe_trans _ _ _ (ih r r (List.mem_cons_self _ _)) hk
          · exact ih r x (List.mem_cons_of_mem _ hx'')
      · rw [if_neg hk]
        have hsr : keyLe (respKey s) (respKey r) = true := by
          rcases keyLe_total (respKey r) (respKey s) with h | h
          · exact absurd h hk
          · exact h
        rcases List.mem_cons.mp hx with h | hx'
        · rw [h]
          exact keyLe_trans _ _ _ (ih s s (List.mem_cons_self _ _)) hsr
        · rcases List.mem_cons.mp hx' with h | hx''
          · rw [h]
            exact ih s s (List.mem_cons_self _ _)
          · exact ih s x (List.mem_cons_of_mem _ hx'')

/-- Characterisation of the selection: the selected responder is one of
the known ones and its key is lowest. -/
lemma selectResponder_spec (l : List Responder) (r : Responder)
    (h : selectResponder l = some r) :
    r ∈ l ∧ ∀ s ∈ l, keyLe (respKey r) (respKey s) = true := by
  cases l with
  | nil => cases h
  | cons a as =>
      have hr : r = minResponder a as := (Option.some.inj h).symm
      subst hr
      exact ⟨minResponder_mem as a, fun s hs => minResponder_le as a s hs⟩


/-- With pairwise-distinct identity keys, equal keys force equal
responders. -/
lemma pairwise_key_inj (l : List Responder)
    (h : l.Pairwise (fun a b => respKey a ≠ respKey b)) :
    ∀ a ∈ l, ∀ b ∈ l, respKey a = respKey b → a = b := by
  induction l with
  | nil => intro a ha; cases ha
  | cons x xs ih =>
      intro a ha b hb hk
      have hx := List.pairwise_cons.mp h
      rcases List.mem_cons.mp ha with rfl | ha' <;>
        rcases List.mem_cons.mp hb with rfl | hb'
      · rfl
      · exact absurd hk (hx.1 b hb')
      · exact absurd hk.symm (hx.1 a ha')
      · exact ih hx.2 a ha' b hb' hk

/-- C8: the responder selection is the byte-lex minimum of the
`(process_uuid, node_uuid)` keys, and it is stable under reordering of
the known-responder list: two requesters that know the same responders
(in any order, with responder identities unique) select the same one. -/
theorem responder_selection_deterministic (l1 l2 : List Responder)
    (hperm : l1.Perm l2)
    (hdist : l1.Pairwise (fun a b => respKey a ≠ respKey b)) :
    selectResponder l1 = selectResponder l2 ∧
    ∀ r, selectResponder l1 = some r →
      ∀ s ∈ l1, keyLe (respKey r) (respKey s) = true := by
  constructor
  · cases l1 with
    | nil =>
        have : l2 = [] := hperm.symm.eq_nil
        rw [this]
    | cons a as =>
        cases l2 with
        | nil => exact absurd hperm.eq_nil (by simp)
        | cons b bs =>
            have h1 : selectResponder (a :: as) = some (minResponder a as) := rfl
            have h2 : selectResponder (b :: bs) = some (minResponder b bs) := rfl
            obtain ⟨hm1mem, hm1min⟩ := selectResponder_spec _ _ h1
            obtain ⟨hm2mem, hm2min⟩ := selectResponder_spec _ _ h2
            have hm2mem1 : minResponder b bs ∈ a :: as := hperm.mem_iff.mpr hm2mem
            have hm1mem2 : minResponder a as ∈ b :: bs := hperm.mem_iff.mp hm1mem
            have hk12 := hm1min _ hm2mem1
            have hk21 := hm2min _ hm1mem2
            have hkeq := keyLe_antisymm _ _ hk12 hk21
            have heq := pairwise_key_inj _ hdist _ hm1mem _ hm2mem1 hkeq
            rw [h1, h2, heq]
  · intro r hr s hs
    exact (selectResponder_spec l1 r hr).2 s hs

/-- Two concrete responders in the same process, distinct node UUIDs. -/
def respA : Responder := ⟨[1, 2], [3], "addr one"⟩

/-- The second concrete responder. -/
def respB : Responder := ⟨[1, 2], [4], "addr two"⟩

/-- C8, witness: two requesters knowing `[respA, respB]` and
`[respB, respA]` select the same responder, and it has the lowest key. -/
theorem responder_selection_deterministic_witness :
    selectResponder [respA, respB] = selectResponder [respB, respA] ∧
    ∀ r, selectResponder [respA, respB] = some r →
      ∀ s ∈ [respA, respB], keyLe (respKey r) (respKey s) = true :=
  responder_selection_deterministic [respA, respB] [respB, respA]
    (List.Perm.swap respB respA []) (by decide)

/-! ### C9 -/

/-- Invariant propagation: running any operation sequence preserves
duplicate-freedom of the node's `topicsSubscribed` and `srvsAdvertised`
lists. -/
lemma runOps_nodup_aux (ops : List NodeOp) :
    ∀ (pst : ProcState) (nd : NodeSt), nd.topicsSubscribed.Nodup →
      nd.srvsAdvertised.Nodup →
      ((runOps (pst, nd) ops).2.topicsSubscribed.Nodup ∧
       (runOps (pst, nd) ops).2.srvsAdvertised.Nodup) := by
  induction ops with
  | nil => intro pst nd h1 h2; exact ⟨h1, h2⟩
  | cons op ops ih =>
      intro pst nd h1 h2
      cases op with
      | subscribe t => exact ih _ _ (nodup_addIfAbsent _ _ h1) h2
      | advertiseSrv t cb => exact ih _ _ h1 (nodup_addIfAbsent _ _ h2)

/-- C9: after any sequence of `Subscribe` and service-`Advertise`
operations starting from a fresh node, the node's `topicsSubscribed` and
`srvsAdvertised` lists contain no duplicates — each records a topic only
when `std::find` does not already locate it. -/
theorem topic_lists_nodup (u : String) (pst0 : ProcState)
    (ops : List NodeOp) :
    (runOps (pst0, initNode u) ops).2.topicsSubscribed.Nodup ∧
    (runOps (pst0, initNode u) ops).2.srvsAdvertised.Nodup :=
  runOps_nodup_aux ops pst0 (initNode u) List.nodup_nil List.nodup_nil

end GzTransport
